import Mathlib

/-!
Verification of the `pci_types` crate: a shallow embedding of its dword-granular
configuration-space access engine (`src/accessor.rs`), capability-chain iterator
(`src/capability/mod.rs`), BAR decode/size-probe (`src/headers.rs`) and MSI
capability codec (`src/capability/msi.rs`), together with theorems settling the
frozen claims about these components.

Machine integers are modelled as `Nat` with explicit `% 2^w` where a `u32`
materialises; typed values are modelled by their little-endian byte images
(`List Nat`, each byte `< 256`), which is exactly how the Rust code moves data
(through `MaybeUninit` byte buffers).  Rust panics (`assert!`, arithmetic
overflow, `unwrap`) are modelled as `none` / a `false` success flag.
-/

namespace PciTypes

variable {σ : Type}

/-- The dword-granular access channel: the `DwordAccessMethod` trait of
`src/address.rs`, over an abstract channel state `σ`.  `read_dword` observes
the state, `write_dword` transforms it.  Concrete impls of the trait are
external to the crate, so theorems quantify over methods (or pick a concrete
one, such as `ram` below, where the claim fixes the channel model). -/
structure DwordAccessMethod (σ : Type) where
  readDword : σ → Nat → Nat
  writeDword : σ → Nat → Nat → σ

/-- A dword-addressed RAM-like store: reading returns the last value written at
that offset.  This is the channel model the spec prescribes for the write/read
round-trip properties. -/
def ram : DwordAccessMethod (Nat → Nat) where
  readDword := fun s off => s off
  writeDword := fun s off v => fun o => if o = off then v else s o

/-- A channel whose registers ignore writes (all bits read-only), as real
hardware does for unimplemented BAR address bits.  Used to exercise probe
read-back values that a plain store cannot produce. -/
def romMethod : DwordAccessMethod (Nat → Nat) where
  readDword := fun s off => s off
  writeDword := fun s _ _ => s

/-- Wraps a method so that every `write_dword` is also appended to a log of
`(offset, value)` pairs, letting theorems speak about the exact sequence of
writes a routine issues. -/
def logged (m : DwordAccessMethod σ) : DwordAccessMethod (σ × List (Nat × Nat)) where
  readDword := fun p off => m.readDword p.1 off
  writeDword := fun p off v => (m.writeDword p.1 off v, p.2 ++ [(off, v)])

/-- Model of `bit_field`'s `get_bit(k)`: bit `k` of `v`. -/
def getBit (v k : Nat) : Bool := v / 2 ^ k % 2 = 1

/-- Model of `bit_field`'s `get_bits(lo..lo+w)`: the `w`-bit field of `v`
starting at bit `lo`. -/
def getBits (v lo w : Nat) : Nat := v / 2 ^ lo % 2 ^ w

/-- Trailing-zero count, fuelled; `tzFuel 32 0 = 32`, matching
`u32::trailing_zeros`. -/
def tzFuel : Nat → Nat → Nat
  | 0, _ => 0
  | f + 1, v => if v % 2 = 1 then 0 else tzFuel f (v / 2) + 1

/-- Model of `u32::trailing_zeros`. -/
def u32tz (v : Nat) : Nat := tzFuel 32 (v % 2 ^ 32)

/-- The four little-endian bytes of a dword (`u32::to_le_bytes`). -/
def dwordLEBytes (v : Nat) : List Nat :=
  [v % 2 ^ 8, v / 2 ^ 8 % 2 ^ 8, v / 2 ^ 16 % 2 ^ 8, v / 2 ^ 24 % 2 ^ 8]

/-- Reassemble a little-endian byte list into a number (`u32::from_le_bytes`
when the list has four bytes). -/
def bytesToDword (bs : List Nat) : Nat :=
  bs.foldr (fun b acc => b + 2 ^ 8 * acc) 0

/-- The read loop of `AccessorTrait::read`'s dword-aligned branch: `k`
sequential dword reads at ascending offsets, little-endian byte images
concatenated. -/
def readChunks (m : DwordAccessMethod σ) (s : σ) : Nat → Nat → List Nat
  | _, 0 => []
  | off, k + 1 => dwordLEBytes (m.readDword s off % 2 ^ 32) ++ readChunks m s (off + 4) k

/-- The write loop of `AccessorTrait::write`'s dword-aligned branch: the byte
list is split into 4-byte chunks, each written as one dword, ascending. -/
def writeChunks (m : DwordAccessMethod σ) : σ → Nat → Nat → List Nat → σ
  | s, _, 0, _ => s
  | s, off, k + 1, bytes =>
      writeChunks m (m.writeDword s off (bytesToDword (bytes.take 4))) (off + 4) k
        (bytes.drop 4)

/-- `AccessorTrait::read` (src/accessor.rs): a value of byte-size `n` at byte
offset `off`.  Sub-dword (`n < 4`): the byte span must lie in one dword
(`assert` models as `none`), one dword read at the containing aligned base, the
sub-range of its little-endian bytes is the result.  Otherwise the offset must
be 4-byte aligned and `n` a multiple of 4; `n / 4` ascending dword reads are
concatenated.  The result is the little-endian byte image of the value read. -/
def accessorRead (m : DwordAccessMethod σ) (s : σ) (off n : Nat) : Option (List Nat) :=
  if n < 4 then
    if off / 4 = (off + n - 1) / 4 then
      some (((dwordLEBytes (m.readDword s (off - off % 4) % 2 ^ 32)).drop (off % 4)).take n)
    else none
  else
    if off % 4 = 0 ∧ n % 4 = 0 then some (readChunks m s off (n / 4)) else none

/-- `AccessorTrait::write` (src/accessor.rs), taking the value's little-endian
byte image.  Sub-dword: read the containing dword, splice the new bytes into
the sub-range, write the dword back.  Aligned: write each 4-byte chunk in
ascending order.  `none` models the alignment/span `assert` panics. -/
def accessorWrite (m : DwordAccessMethod σ) (s : σ) (off : Nat) (bytes : List Nat) : Option σ :=
  if bytes.length < 4 then
    if off / 4 = (off + bytes.length - 1) / 4 then
      some (m.writeDword s (off - off % 4)
        (bytesToDword
          ((dwordLEBytes (m.readDword s (off - off % 4) % 2 ^ 32)).take (off % 4) ++ bytes ++
            (dwordLEBytes (m.readDword s (off - off % 4) % 2 ^ 32)).drop
              (off % 4 + bytes.length))))
    else none
  else
    if off % 4 = 0 ∧ bytes.length % 4 = 0 then
      some (writeChunks m s off (bytes.length / 4) bytes)
    else none

/-- Decoded BAR value (`Bar` enum of src/headers.rs). -/
inductive Bar where
  | Memory32 (address size : Nat) (prefetchable : Bool)
  | Memory64 (address size : Nat) (prefetchable : Bool)
  | Io (port : Nat)
deriving DecidableEq

/-- Model of `(1i32 << k) as u64` for the shift amounts `4 ≤ k ≤ 31` that the
64-bit BAR size path produces (`(1 << readback_low.trailing_zeros()) as u64`
with an untyped literal `1`, hence `i32`): for `k = 31` the `i32` shift yields
`i32::MIN`, which sign-extends to `0xFFFFFFFF80000000` when cast to `u64`. -/
def i32ShlCastU64 (k : Nat) : Nat := if k ≤ 30 then 1 <<< k else 0xFFFFFFFF80000000

/-- `EndpointHeader::bar` / `PciPciBridgeHeader::bar` (src/headers.rs); the two
bodies are textually identical except for `MAX_BARS` (6 vs 2), abstracted here
as `maxBars`.  `base` is the offset of the header (0 for a real config region),
so BAR slot `i` lives at dword offset `base + 0x10 + 4*i`; all BAR accesses are
aligned 4-byte accessor reads/writes, i.e. single dword transactions.  Result:
`(outcome, final state)` where the outcome `none` models a panic (unaligned
access, reserved memory-type encoding, or shift overflow in the size
computation) and `some none` is Rust's `None` (absent/invalid BAR). -/
def barRead (m : DwordAccessMethod σ) (maxBars : Nat) (s : σ) (base slot : Nat) :
    Option (Option Bar) × σ :=
  if maxBars ≤ slot then (some none, s)
  else
    let off := base + 0x10 + 4 * slot
    if off % 4 = 0 then
      let bar := m.readDword s off % 2 ^ 32
      if getBit bar 0 = false then
        let prefetchable := getBit bar 3
        let address := getBits bar 4 28 * 2 ^ 4
        if getBits bar 1 2 = 0 then
          let s1 := m.writeDword s off 0xfffffff0
          let readback := m.readDword s1 off % 2 ^ 32
          let s2 := m.writeDword s1 off address
          if readback = 0 then (some none, s2)
          else
            let masked := readback / 2 ^ 4 * 2 ^ 4
            if masked = 0 then (none, s2)
            else (some (some (Bar.Memory32 address (1 <<< u32tz masked) prefetchable)), s2)
        else if getBits bar 1 2 = 2 then
          if maxBars ≤ slot + 1 then (some none, s)
          else
            let addressUpper := m.readDword s (off + 4) % 2 ^ 32
            let s1 := m.writeDword s off 0xfffffff0
            let s2 := m.writeDword s1 (off + 4) 0xffffffff
            let readbackLow := m.readDword s2 off % 2 ^ 32
            let readbackHigh := m.readDword s2 (off + 4) % 2 ^ 32
            let s3 := m.writeDword s2 off address
            let s4 := m.writeDword s3 (off + 4) addressUpper
            let maskedLow := readbackLow / 2 ^ 4 * 2 ^ 4
            if maskedLow ≠ 0 then
              (some (some (Bar.Memory64 (address + addressUpper * 2 ^ 32)
                (i32ShlCastU64 (u32tz maskedLow)) prefetchable)), s4)
            else if readbackHigh = 0 then (none, s4)
            else
              (some (some (Bar.Memory64 (address + addressUpper * 2 ^ 32)
                (1 <<< (u32tz readbackHigh + 32)) prefetchable)), s4)
        else (none, s)
      else (some (some (Bar.Io (getBits bar 2 30 * 2 ^ 2))), s)
    else (none, s)

/-- `EndpointHeader::bar` (`MAX_BARS = 6`). -/
def endpointBar (m : DwordAccessMethod σ) (s : σ) (base slot : Nat) :
    Option (Option Bar) × σ :=
  barRead m 6 s base slot

/-- `PciPciBridgeHeader::bar` (`MAX_BARS = 2`). -/
def pciPciBridgeBar (m : DwordAccessMethod σ) (s : σ) (base slot : Nat) :
    Option (Option Bar) × σ :=
  barRead m 2 s base slot

/-- Modelled from the spec for the amended C3: the write sequence a BAR probe
is expected to issue, as a function of the raw BAR dword `bar`, the upper
slot's original dword `up`, the slot's byte offset `off` and the slot index.
Non-probing paths issue no writes; a 32-bit memory probe writes all-ones then
restores `bar` with its low 4 bits cleared; a 64-bit probe does the same on the
low slot and rewrites the upper slot's exact original value. -/
def probeWriteLogSpec (maxBars bar up off slot : Nat) : List (Nat × Nat) :=
  if maxBars ≤ slot then []
  else if getBit bar 0 then []
  else if getBits bar 1 2 = 0 then [(off, 0xfffffff0), (off, getBits bar 4 28 * 2 ^ 4)]
  else if getBits bar 1 2 = 2 then
    if maxBars ≤ slot + 1 then []
    else [(off, 0xfffffff0), (off + 4, 0xffffffff),
          (off, getBits bar 4 28 * 2 ^ 4), (off + 4, up)]
  else []

/-- `CapabilityIterator::next` (src/capability/mod.rs).  The iterator's state is
the byte offset of its accessor.  If the offset is 0 the traversal ends
(`some none`).  Otherwise the `CapabilityHeader` (4 bytes, hence an aligned
accessor read of one dword) is read and the call returns
`some (some (yielded accessor offset, iterator offset after the call))`:
the code yields `self.acc.with_offset(next)` and never reassigns `self.acc`,
so the yielded offset is the header's `next` byte and the iterator offset is
unchanged.  The outer `none` models the alignment panic of the read. -/
def capabilityIteratorNext (m : DwordAccessMethod σ) (s : σ) (off : Nat) :
    Option (Option (Nat × Nat)) :=
  if off = 0 then some none
  else (accessorRead m s off 4).map fun bs => some (bs.getD 1 0, off)

/-- The `Intr` register pair (src/dwords.rs): `#[repr(C)]` with
`interrupt_pin` declared first, `interrupt_line` second. -/
structure Intr where
  interrupt_pin : Nat
  interrupt_line : Nat
deriving DecidableEq

/-- Reading `EndpointHeader.interrupt` (the `Intr` field at offset 0x3C)
through an accessor: a 2-byte sub-dword accessor read at `base + 0x3C`, whose
first byte (config-space offset 0x3C) fills `interrupt_pin` and second byte
(offset 0x3D) fills `interrupt_line`, per the declared field order of `Intr`. -/
def endpointInterrupt (m : DwordAccessMethod σ) (s : σ) (base : Nat) : Option Intr :=
  (accessorRead m s (base + 0x3C) 2).map fun bs =>
    { interrupt_pin := bs.getD 0 0, interrupt_line := bs.getD 1 0 }

/-- `MultipleMessageSupport` (src/capability/msi.rs), encodings 0b000..0b101. -/
inductive MultipleMessageSupport where
  | Int1
  | Int2
  | Int4
  | Int8
  | Int16
  | Int32
deriving DecidableEq

/-- The `repr(u8)` encoding of a `MultipleMessageSupport` value (also its rank
under the derived `Ord`). -/
def MultipleMessageSupport.toBits : MultipleMessageSupport → Nat
  | .Int1 => 0
  | .Int2 => 1
  | .Int4 => 2
  | .Int8 => 3
  | .Int16 => 4
  | .Int32 => 5

/-- `TryFrom<u8> for MultipleMessageSupport`: `Err` on 0b110/0b111 and any
larger value. -/
def MultipleMessageSupport.tryFrom : Nat → Option MultipleMessageSupport
  | 0 => some .Int1
  | 1 => some .Int2
  | 2 => some .Int4
  | 3 => some .Int8
  | 4 => some .Int16
  | 5 => some .Int32
  | _ => none

/-- Rust's `Ord::min` on `MultipleMessageSupport` (derived `Ord`, variant
declaration order). -/
def mmsMin (a b : MultipleMessageSupport) : MultipleMessageSupport :=
  if a.toBits ≤ b.toBits then a else b

/-- `MessageControl::multiple_message_capable`: bits 1..=3 of the control word,
`try_from(..).unwrap()` — the `unwrap` panic on a reserved encoding is
modelled as `none`. -/
def multipleMessageCapable (ctrl : Nat) : Option MultipleMessageSupport :=
  MultipleMessageSupport.tryFrom (getBits ctrl 1 3)

/-- `MessageControl::multiple_message_enable`: bits 4..=6,
`try_from(..).unwrap_or(Int1)`. -/
def multipleMessageEnable (ctrl : Nat) : MultipleMessageSupport :=
  (MultipleMessageSupport.tryFrom (getBits ctrl 4 3)).getD .Int1

/-- `MessageControl::set_multiple_message_enable(value)`: sets bits 4..=6 to
`min(value, multiple_message_capable())`.  Propagates the
`multiple_message_capable` panic (`none`) on reserved capable encodings. -/
def setMultipleMessageEnable (ctrl : Nat) (value : MultipleMessageSupport) : Option Nat :=
  (multipleMessageCapable ctrl).map fun cap =>
    ctrl % 2 ^ 4 + (mmsMin value cap).toBits * 2 ^ 4 + ctrl / 2 ^ 7 * 2 ^ 7

/-- The canonical 64-bit-shaped MSI capability value
(`MsiCapabilityInfo = MsiCapability64Bit`, src/capability/msi.rs): header id,
header next pointer, `MessageControl` word (the header's 16-bit extension),
two address dwords, message data, mask bits, pending bits. -/
structure MsiInfo where
  id : Nat
  next : Nat
  ctrl : Nat
  addr0 : Nat
  addr1 : Nat
  data : Nat
  maskBits : Nat
  pendingBits : Nat
deriving DecidableEq

/-- `MsiCapabilityInfo::read_info` at capability offset `off`.  Reads the
header dword (panics — `none` — if unaligned or the id byte is not 0x05),
classifies by control-word bit 7, reads the fields present in the matching
layout (`addr[0]`, `data` for 32-bit at offsets +4, +8; `addr[0..2]`, `data`,
`mask_bits`, `pending_bits` for 64-bit at +4, +8, +12, +16, +20 — all aligned
4-byte accessor reads, i.e. single dword reads), and zero-fills the absent
fields of the canonical 64-bit shape. -/
def msiReadInfo (m : DwordAccessMethod σ) (s : σ) (off : Nat) : Option MsiInfo :=
  if off % 4 = 0 then
    let hdr := m.readDword s off % 2 ^ 32
    if hdr % 2 ^ 8 = 5 then
      let ext := hdr / 2 ^ 16 % 2 ^ 16
      if getBit ext 7 = false then
        some { id := hdr % 2 ^ 8, next := hdr / 2 ^ 8 % 2 ^ 8, ctrl := ext,
               addr0 := m.readDword s (off + 4) % 2 ^ 32, addr1 := 0,
               data := m.readDword s (off + 8) % 2 ^ 32,
               maskBits := 0, pendingBits := 0 }
      else
        some { id := hdr % 2 ^ 8, next := hdr / 2 ^ 8 % 2 ^ 8, ctrl := ext,
               addr0 := m.readDword s (off + 4) % 2 ^ 32,
               addr1 := m.readDword s (off + 8) % 2 ^ 32,
               data := m.readDword s (off + 12) % 2 ^ 32,
               maskBits := m.readDword s (off + 16) % 2 ^ 32,
               pendingBits := m.readDword s (off + 20) % 2 ^ 32 }
    else none
  else none

/-- `MsiCapabilityInfo::write_info` at capability offset `off`.  Reads the
header dword, then asserts (in source order, all before any write): the
device id byte is 0x05, `info`'s id equals it, `info`'s next pointer equals
the device's, and `info`'s control bit 7 equals the device's.  A failed assert
is the boolean `false` with the state unchanged.  On success it writes back,
per the classified layout, the header dword (id, next, control — little-endian
byte image), `addr[0]` and `data` (and `addr[1]` on the 64-bit layout);
`mask_bits`/`pending_bits` are never written. -/
def msiWriteInfo (m : DwordAccessMethod σ) (s : σ) (off : Nat) (info : MsiInfo) : Bool × σ :=
  if off % 4 = 0 then
    let hdr := m.readDword s off % 2 ^ 32
    let ext := hdr / 2 ^ 16 % 2 ^ 16
    if hdr % 2 ^ 8 = 5 then
      if info.id = hdr % 2 ^ 8 then
        if info.next = hdr / 2 ^ 8 % 2 ^ 8 then
          if getBit info.ctrl 7 = getBit ext 7 then
            let hdrDword := info.id % 2 ^ 8 + info.next % 2 ^ 8 * 2 ^ 8 + info.ctrl % 2 ^ 16 * 2 ^ 16
            if getBit ext 7 = false then
              let s1 := m.writeDword s off hdrDword
              let s2 := m.writeDword s1 (off + 4) (info.addr0 % 2 ^ 32)
              let s3 := m.writeDword s2 (off + 8) (info.data % 2 ^ 32)
              (true, s3)
            else
              let s1 := m.writeDword s off hdrDword
              let s2 := m.writeDword s1 (off + 4) (info.addr0 % 2 ^ 32)
              let s3 := m.writeDword s2 (off + 8) (info.addr1 % 2 ^ 32)
              let s4 := m.writeDword s3 (off + 12) (info.data % 2 ^ 32)
              (true, s4)
          else (false, s)
        else (false, s)
      else (false, s)
    else (false, s)
  else (false, s)

/-! ## Concrete stores used by counterexamples and witnesses -/

/-- A store whose capability header dword at offset 0x40 is `0x00000005`:
capability id byte `0x05`, `next` byte `0x00` (terminator), zero extension. -/
def capStore : Nat → Nat := fun o => if o = 0x40 then 0x05 else 0

/-- A store whose dword at offset 0x3C is `0x000001AA`: byte 0x3C is `0xAA`,
byte 0x3D is `0x01`. -/
def intrStore : Nat → Nat := fun o => if o = 0x3C then 0x01AA else 0

/-- A store whose BAR-0 dword (offset 0x10) is `0x8`: a 32-bit memory BAR
(bit 0 = 0, bits 1-2 = 00) with the prefetchable bit (bit 3) set. -/
def store8at10 : Nat → Nat := fun o => if o = 0x10 then 8 else 0

/-- The all-zero store. -/
def zeroStore : Nat → Nat := fun _ => 0

/-! ## C1 — capability-chain traversal -/

/-- C1: the claim fails on the code (code bug).  With the capability header
`{id = 0x05, next = 0x00}` at offset 0x40 and the iterator positioned there,
`next()` is claimed to yield the accessor at the current offset (0x40), advance
the internal offset to `next` (0), and hence stop after one item.  The code
instead returns `Some(self.acc.with_offset(next))` without ever reassigning
`self.acc`: this call yields an accessor at offset 0 — the header's `next`
field, not the current offset — and leaves the iterator offset at 0x40, so the
very same call repeats forever and the traversal never returns `None`. -/
theorem capabilityIterator_stuck_at_terminal_header :
    capabilityIteratorNext ram capStore 0x40 = some (some (0, 0x40)) := by decide

/-! ## C8 — endpoint interrupt register layout -/

/-- C8: the claim matches the code's own layout diagram but not the code (code
bug).  With byte 0x3C = `0xAA` and byte 0x3D = `0x01`, reading the `interrupt`
field returns `interrupt_pin = 0xAA` and `interrupt_line = 0x01`: the
`#[repr(C)]` struct `Intr` declares `interrupt_pin` before `interrupt_line`,
so the byte at 0x3C lands in the pin and the byte at 0x3D in the line — the
opposite of the claim, of the header diagram in src/headers.rs (which puts
"Interrupt Line" in byte 0x3C and "Interrupt PIN" in byte 0x3D), and of the
PCI-defined layout. -/
theorem endpoint_interrupt_pin_at_3C :
    endpointInterrupt ram intrStore 0 =
      some { interrupt_pin := 0xAA, interrupt_line := 0x01 } := by decide

/-! ## C9 / C10 — multiple-message enable -/

/-- `tryFrom` inverts `toBits`. -/
theorem tryFrom_toBits (x : MultipleMessageSupport) :
    MultipleMessageSupport.tryFrom x.toBits = some x := by cases x <;> rfl

/-- `toBits` is at most 5. -/
theorem toBits_le (x : MultipleMessageSupport) : x.toBits ≤ 5 := by cases x <;> decide

/-- C9 counterexample: for the control word `0xC` (capable field = reserved
encoding 0b110), `set_multiple_message_enable(Int32)` does not set the enable
field to a clamped value — it panics (`none`), refuting "for every device
control word ... rather than failing". -/
theorem set_mme_reserved_counterexample :
    setMultipleMessageEnable 0xC MultipleMessageSupport.Int32 = none := by decide

/-- C9 (amended): for every requested value and every control word whose
multiple-message-capable field holds a valid encoding (`some cap`),
`set_multiple_message_enable(value)` sets bits 4..=6 to
`min(value, cap)` (and preserves the other bits), so the resulting
`multiple_message_enable()` is the clamped value. -/
theorem set_mme_clamps (ctrl : Nat) (value cap : MultipleMessageSupport)
    (hcap : multipleMessageCapable ctrl = some cap) :
    setMultipleMessageEnable ctrl value =
      some (ctrl % 2 ^ 4 + (mmsMin value cap).toBits * 2 ^ 4 + ctrl / 2 ^ 7 * 2 ^ 7) ∧
    multipleMessageEnable
        (ctrl % 2 ^ 4 + (mmsMin value cap).toBits * 2 ^ 4 + ctrl / 2 ^ 7 * 2 ^ 7) =
      mmsMin value cap := by
  constructor
  · simp [setMultipleMessageEnable, hcap]
  · have ht := toBits_le (mmsMin value cap)
    have harith :
        getBits (ctrl % 2 ^ 4 + (mmsMin value cap).toBits * 2 ^ 4 + ctrl / 2 ^ 7 * 2 ^ 7) 4 3 =
          (mmsMin value cap).toBits := by
      unfold getBits
      omega
    rw [multipleMessageEnable, harith, tryFrom_toBits]
    rfl

/-- C9 witness: requesting `Int32` against a device with
`multiple_message_capable() == Int4` (control word 4) yields
`multiple_message_enable() == Int4`. -/
theorem set_mme_clamps_witness :
    multipleMessageCapable 4 = some MultipleMessageSupport.Int4 ∧
    (setMultipleMessageEnable 4 MultipleMessageSupport.Int32 = some 36 ∧
      multipleMessageEnable 36 = MultipleMessageSupport.Int4) :=
  ⟨rfl, set_mme_clamps 4 MultipleMessageSupport.Int32 MultipleMessageSupport.Int4 rfl⟩

/-- C10: for every MSI control word whose multiple-message-capable field
(bits 1..=3) holds a reserved encoding 0b110 or 0b111,
`multiple_message_capable()` panics (`none`) instead of returning a value, and
consequently `set_multiple_message_enable`, which calls it, panics as well. -/
theorem mme_capable_reserved_panics (ctrl : Nat) (value : MultipleMessageSupport)
    (h : getBits ctrl 1 3 = 6 ∨ getBits ctrl 1 3 = 7) :
    multipleMessageCapable ctrl = none ∧ setMultipleMessageEnable ctrl value = none := by
  have hc : multipleMessageCapable ctrl = none := by
    unfold multipleMessageCapable
    rcases h with h | h <;> rw [h] <;> rfl
  exact ⟨hc, by simp [setMultipleMessageEnable, hc]⟩

/-- C10 witness: the control word `0xC` has capable field 0b110; both
`multiple_message_capable` and `set_multiple_message_enable` panic on it. -/
theorem mme_capable_reserved_panics_witness :
    (getBits 0xC 1 3 = 6 ∨ getBits 0xC 1 3 = 7) ∧
    (multipleMessageCapable 0xC = none ∧
      setMultipleMessageEnable 0xC MultipleMessageSupport.Int1 = none) :=
  ⟨by decide, mme_capable_reserved_panics 0xC MultipleMessageSupport.Int1 (by decide)⟩

/-! ## C3 / C5 — BAR size probe -/

/-- C3 counterexample: a prefetchable 32-bit memory BAR with raw dword `0x8`.
The probe terminates normally (size `0x10`), but the final value written back
to the probed slot is `0x0` — the raw value with its low four bits cleared —
not the raw dword `0x8` read before the probe, refuting "the final value
written back to each probed slot equals the raw dword value read from that
slot before the probe". -/
theorem bar_probe_restore_counterexample :
    store8at10 0x10 = 8 ∧
    (endpointBar ram store8at10 0 0).1 = some (some (Bar.Memory32 0 16 true)) ∧
    (endpointBar ram store8at10 0 0).2 0x10 = 0 := ⟨rfl, by decide, by decide⟩

/-- C5 counterexample: a 32-bit memory BAR (raw dword `0x8`: bit 0 = 0,
bits 1-2 = 00) on a channel whose register ignores writes, so the probe
readback is `0x8`: nonzero, but zero once the low four bits are masked.  The
claim says such a masked-zero readback reports the BAR as absent (`None`); the
code only tests the *raw* readback against zero, falls through, and panics on
`1 << 32` (`trailing_zeros` of the masked zero) — outcome `none` (panic), not
`some none` (absent). -/
theorem memory32_masked_zero_readback_panics :
    getBit (romMethod.readDword store8at10 0x10 % 2 ^ 32) 0 = false ∧
    getBits (romMethod.readDword store8at10 0x10 % 2 ^ 32) 1 2 = 0 ∧
    romMethod.readDword (romMethod.writeDword store8at10 0x10 0xfffffff0) 0x10 % 2 ^ 32 = 8 ∧
    (8 : Nat) ≠ 0 ∧ (8 : Nat) / 2 ^ 4 * 2 ^ 4 = 0 ∧
    (endpointBar romMethod store8at10 0 0).1 = none := by decide

/-- C5 (amended): for every channel, a 32-bit memory BAR decode (bit 0 = 0,
bits 1-2 = 00, slot in range, aligned header base) probes by writing all-ones
to the address bits and restoring; writing `rb` for the raw readback: if `rb`
is zero the BAR is reported absent (`None`); if the masked readback
`rb / 2^4 * 2^4` is nonzero the size is `1` shifted left by its trailing-zero
count (stated as `2 ^ u32tz`); and — the correction — if `rb` is nonzero but
the masked readback is zero, the code panics (`1 << 32` overflow) rather than
reporting the BAR absent. -/
theorem memory32_bar_size_decode {σ : Type} (m : DwordAccessMethod σ) (s : σ)
    (base slot off bar rb : Nat) (s2 : σ)
    (hoff : off = base + 0x10 + 4 * slot)
    (hb : base % 4 = 0) (hsl : slot < 6)
    (hbar : bar = m.readDword s off % 2 ^ 32)
    (hmem : getBit bar 0 = false)
    (hw : getBits bar 1 2 = 0)
    (hrb : rb = m.readDword (m.writeDword s off 0xfffffff0) off % 2 ^ 32)
    (hs2 : s2 = m.writeDword (m.writeDword s off 0xfffffff0) off (getBits bar 4 28 * 2 ^ 4)) :
    (rb = 0 → endpointBar m s base slot = (some none, s2)) ∧
    (rb ≠ 0 → rb / 2 ^ 4 * 2 ^ 4 ≠ 0 →
      endpointBar m s base slot =
        (some (some (Bar.Memory32 (getBits bar 4 28 * 2 ^ 4)
          (2 ^ u32tz (rb / 2 ^ 4 * 2 ^ 4)) (getBit bar 3))), s2)) ∧
    (rb ≠ 0 → rb / 2 ^ 4 * 2 ^ 4 = 0 → endpointBar m s base slot = (none, s2)) := by
  subst hoff hbar hrb hs2
  have h6 : ¬ (6 ≤ slot) := by omega
  have ha : (base + 0x10 + 4 * slot) % 4 = 0 := by omega
  simp only [endpointBar, barRead, if_neg h6, if_pos ha, hmem, hw, Nat.one_shiftLeft]
  refine ⟨fun h0 => ?_, fun h0 h1 => ?_, fun h0 h1 => ?_⟩ <;> split_ifs <;> rfl

/-- C5 witness: on the RAM channel with an all-zero store, BAR 0 decodes as a
32-bit memory BAR; the probe readback is `0xfffffff0`, so the size is
`2^4 = 0x10` and the register is rewritten to its decoded base 0. -/
theorem memory32_bar_size_decode_witness :
    (0 : Nat) % 4 = 0 ∧
    endpointBar ram zeroStore 0 0 =
      (some (some (Bar.Memory32 0 16 false)),
        ram.writeDword (ram.writeDword zeroStore 0x10 0xfffffff0) 0x10 0) :=
  ⟨rfl,
    (memory32_bar_size_decode ram zeroStore 0 0 0x10 0 0xfffffff0
        (ram.writeDword (ram.writeDword zeroStore 0x10 0xfffffff0) 0x10 0)
        rfl rfl (by decide) rfl (by decide) (by decide) rfl rfl).2.1
      (by decide) (by decide)⟩

/-- The BAR decode issues exactly the write sequence of `probeWriteLogSpec`:
no writes on non-probing paths, and on every probing path (on every exit,
early returns and the post-restore panic included) the final write to the
probed low slot is the raw dword with its low 4 bits cleared, and the final
write to the upper slot of a 64-bit probe is exactly its original dword. -/
theorem barRead_writeLog {σ : Type} (m : DwordAccessMethod σ) (s : σ)
    (maxBars base slot : Nat) (hb : base % 4 = 0) :
    (barRead (logged m) maxBars (s, []) base slot).2.2 =
      probeWriteLogSpec maxBars (m.readDword s (base + 0x10 + 4 * slot) % 2 ^ 32)
        (m.readDword s (base + 0x10 + 4 * slot + 4) % 2 ^ 32) (base + 0x10 + 4 * slot) slot := by
  have ha : (base + 0x10 + 4 * slot) % 4 = 0 := by omega
  simp only [barRead, probeWriteLogSpec, logged, if_pos ha]
  split_ifs <;> simp_all

/-- C3 (amended): for both `EndpointHeader::bar` and `PciPciBridgeHeader::bar`
(on an aligned header base), the complete sequence of dword writes issued
equals `probeWriteLogSpec`: on every exit path (early returns included) a
probed register is written back last, with the low slot restored to the raw
dword read before the probe *with its low four bits cleared* (the address
bits restored exactly — not the full raw value, which is the correction) and
the upper slot of a 64-bit probe restored to exactly its original dword;
paths that do not probe issue no writes at all, so the probe never leaves the
config space in the probed state. -/
theorem bar_probe_write_log {σ : Type} (m : DwordAccessMethod σ) (s : σ)
    (base slot : Nat) (hb : base % 4 = 0) :
    ((endpointBar (logged m) (s, []) base slot).2.2 =
      probeWriteLogSpec 6 (m.readDword s (base + 0x10 + 4 * slot) % 2 ^ 32)
        (m.readDword s (base + 0x10 + 4 * slot + 4) % 2 ^ 32)
        (base + 0x10 + 4 * slot) slot) ∧
    ((pciPciBridgeBar (logged m) (s, []) base slot).2.2 =
      probeWriteLogSpec 2 (m.readDword s (base + 0x10 + 4 * slot) % 2 ^ 32)
        (m.readDword s (base + 0x10 + 4 * slot + 4) % 2 ^ 32)
        (base + 0x10 + 4 * slot) slot) :=
  ⟨barRead_writeLog m s 6 base slot hb, barRead_writeLog m s 2 base slot hb⟩

/-- C3 witness: on the RAM channel with the all-zero store (BAR 0 is a 32-bit
memory BAR with raw dword 0), both BAR readers log exactly the probe write
`0xfffffff0` followed by the restore write `0`. -/
theorem bar_probe_write_log_witness :
    (0 : Nat) % 4 = 0 ∧
    ((endpointBar (logged ram) (zeroStore, []) 0 0).2.2 =
        probeWriteLogSpec 6 0 0 0x10 0 ∧
      (pciPciBridgeBar (logged ram) (zeroStore, []) 0 0).2.2 =
        probeWriteLogSpec 2 0 0 0x10 0) :=
  ⟨rfl, bar_probe_write_log ram zeroStore 0 0 rfl⟩

/-! ## C6 / C7 — MSI capability codec -/

/-- RAM reads return the stored value. -/
theorem ram_read (s : Nat → Nat) (o : Nat) : ram.readDword s o = s o := rfl

/-- RAM writes update one key. -/
theorem ram_write_get (s : Nat → Nat) (off v o : Nat) :
    ram.writeDword s off v o = if o = off then v else s o := rfl

/-- C7: positioned at an MSI capability header (aligned offset whose id byte
is 0x05), `write_info(info)` fails if and only if `info`'s header id differs
from 0x05, `info`'s next pointer differs from the device's current next byte,
or `info`'s 64-bit-address flag (control bit 7) differs from the device's
current control word flag; and on failure the channel state is untouched —
the asserts run before any write is issued. -/
theorem msi_write_info_failure_iff {σ : Type} (m : DwordAccessMethod σ) (s : σ)
    (off : Nat) (info : MsiInfo)
    (h4 : off % 4 = 0)
    (hid : m.readDword s off % 2 ^ 32 % 2 ^ 8 = 5) :
    ((msiWriteInfo m s off info).1 = false ↔
      (info.id ≠ 5 ∨ info.next ≠ m.readDword s off % 2 ^ 32 / 2 ^ 8 % 2 ^ 8 ∨
        getBit info.ctrl 7 ≠ getBit (m.readDword s off % 2 ^ 32 / 2 ^ 16 % 2 ^ 16) 7)) ∧
    ((msiWriteInfo m s off info).1 = false → (msiWriteInfo m s off info).2 = s) := by
  simp only [msiWriteInfo, if_pos h4, hid, eq_self_iff_true, if_true]
  split_ifs with c1 c2 c3 c4 <;> simp_all

/-- A 64-bit-shaped MSI capability value (control bit 7 set). -/
def msi64Info : MsiInfo :=
  { id := 5, next := 0, ctrl := 0x80, addr0 := 0, addr1 := 0, data := 0,
    maskBits := 0, pendingBits := 0 }

/-- C7 witness: against the device header `{id = 0x05, next = 0, ctrl = 0}`
(a control word reporting 32-bit-only) at offset 0x40, writing the
64-bit-shaped `msi64Info` fails the identity/width check and leaves the store
untouched. -/
theorem msi_write_info_failure_iff_witness :
    ram.readDword capStore 0x40 % 2 ^ 32 % 2 ^ 8 = 5 ∧
    (msiWriteInfo ram capStore 0x40 msi64Info).1 = false ∧
    (msiWriteInfo ram capStore 0x40 msi64Info).2 = capStore := by
  have h := msi_write_info_failure_iff ram capStore 0x40 msi64Info (by decide) (by decide)
  exact ⟨rfl, h.1.mpr (by decide), h.2 (h.1.mpr (by decide))⟩

/-- C6: on the RAM channel, with the device control word reporting the 32-bit
variant and `info` a matching 32-bit-shaped capability (id 0x05, next pointer
and width flag matching the device), `write_info(info)` succeeds and a
following `read_info` returns the canonical 64-bit-shaped value whose header
(id, next, control), `addr[0]` and `data` equal those written, and whose
`addr[1]`, `mask_bits` and `pending_bits` are zero-filled. -/
theorem msi_write_read_roundtrip_32bit (s : Nat → Nat) (off : Nat) (info : MsiInfo)
    (h4 : off % 4 = 0)
    (hid : s off % 2 ^ 32 % 2 ^ 8 = 5)
    (hdev : getBit (s off % 2 ^ 32 / 2 ^ 16 % 2 ^ 16) 7 = false)
    (hiid : info.id = 5)
    (hinext : info.next = s off % 2 ^ 32 / 2 ^ 8 % 2 ^ 8)
    (hictrl : getBit info.ctrl 7 = false)
    (hc : info.ctrl < 2 ^ 16) (ha : info.addr0 < 2 ^ 32) (hd : info.data < 2 ^ 32) :
    ∃ s3, msiWriteInfo ram s off info = (true, s3) ∧
      msiReadInfo ram s3 off = some { info with addr1 := 0, maskBits := 0, pendingBits := 0 } := by
  obtain ⟨iid, inext, ictrl, ia0, ia1, idt, imk, ipd⟩ := info
  simp only at hiid hinext hictrl hc ha hd
  subst hiid hinext
  refine ⟨ram.writeDword (ram.writeDword (ram.writeDword s off
      (5 % 2 ^ 8 + (s off % 2 ^ 32 / 2 ^ 8 % 2 ^ 8) % 2 ^ 8 * 2 ^ 8 + ictrl % 2 ^ 16 * 2 ^ 16))
      (off + 4) (ia0 % 2 ^ 32)) (off + 8) (idt % 2 ^ 32), ?_, ?_⟩
  · simp only [msiWriteInfo, if_pos h4, ram_read, hid, eq_self_iff_true, if_true]
    rw [if_pos (hictrl.trans hdev.symm), if_pos hdev]
  · have e0 : ram.writeDword (ram.writeDword (ram.writeDword s off
        (5 % 2 ^ 8 + (s off % 2 ^ 32 / 2 ^ 8 % 2 ^ 8) % 2 ^ 8 * 2 ^ 8 + ictrl % 2 ^ 16 * 2 ^ 16))
        (off + 4) (ia0 % 2 ^ 32)) (off + 8) (idt % 2 ^ 32) off
        = 5 % 2 ^ 8 + (s off % 2 ^ 32 / 2 ^ 8 % 2 ^ 8) % 2 ^ 8 * 2 ^ 8 + ictrl % 2 ^ 16 * 2 ^ 16 := by
      rw [ram_write_get, if_neg (by omega), ram_write_get, if_neg (by omega),
        ram_write_get, if_pos rfl]
    have e1 : ram.writeDword (ram.writeDword (ram.writeDword s off
        (5 % 2 ^ 8 + (s off % 2 ^ 32 / 2 ^ 8 % 2 ^ 8) % 2 ^ 8 * 2 ^ 8 + ictrl % 2 ^ 16 * 2 ^ 16))
        (off + 4) (ia0 % 2 ^ 32)) (off + 8) (idt % 2 ^ 32) (off + 4) = ia0 % 2 ^ 32 := by
      rw [ram_write_get, if_neg (by omega), ram_write_get, if_pos rfl]
    have e2 : ram.writeDword (ram.writeDword (ram.writeDword s off
        (5 % 2 ^ 8 + (s off % 2 ^ 32 / 2 ^ 8 % 2 ^ 8) % 2 ^ 8 * 2 ^ 8 + ictrl % 2 ^ 16 * 2 ^ 16))
        (off + 4) (ia0 % 2 ^ 32)) (off + 8) (idt % 2 ^ 32) (off + 8) = idt % 2 ^ 32 := by
      rw [ram_write_get, if_pos rfl]
    have hm : (5 % 2 ^ 8 + (s off % 2 ^ 32 / 2 ^ 8 % 2 ^ 8) % 2 ^ 8 * 2 ^ 8 + ictrl % 2 ^ 16 * 2 ^ 16)
        % 2 ^ 32
        = 5 % 2 ^ 8 + (s off % 2 ^ 32 / 2 ^ 8 % 2 ^ 8) % 2 ^ 8 * 2 ^ 8 + ictrl % 2 ^ 16 * 2 ^ 16 := by
      omega
    have h5 : (5 % 2 ^ 8 + (s off % 2 ^ 32 / 2 ^ 8 % 2 ^ 8) % 2 ^ 8 * 2 ^ 8 + ictrl % 2 ^ 16 * 2 ^ 16)
        % 2 ^ 8 = 5 := by omega
    have hnq : (5 % 2 ^ 8 + (s off % 2 ^ 32 / 2 ^ 8 % 2 ^ 8) % 2 ^ 8 * 2 ^ 8 + ictrl % 2 ^ 16 * 2 ^ 16)
        / 2 ^ 8 % 2 ^ 8 = s off % 2 ^ 32 / 2 ^ 8 % 2 ^ 8 := by omega
    have hextq : (5 % 2 ^ 8 + (s off % 2 ^ 32 / 2 ^ 8 % 2 ^ 8) % 2 ^ 8 * 2 ^ 8 + ictrl % 2 ^ 16 * 2 ^ 16)
        / 2 ^ 16 % 2 ^ 16 = ictrl := by omega
    simp only [msiReadInfo, if_pos h4, ram_read, e0, e1, e2, hm, h5, hnq, hextq,
      eq_self_iff_true, if_true, hictrl]
    simp only [Option.some.injEq, MsiInfo.mk.injEq]
    refine ⟨trivial, trivial, trivial, by omega, trivial, by omega, trivial, trivial⟩

/-- A 32-bit-shaped MSI capability value matching `capStore`'s header. -/
def msi32Info : MsiInfo :=
  { id := 5, next := 0, ctrl := 0, addr0 := 0x12345678, addr1 := 0, data := 0x9ABC,
    maskBits := 0, pendingBits := 0 }

/-- C6 witness: writing `msi32Info` at offset 0x40 of `capStore` (32-bit
control word) and reading back returns exactly `msi32Info` (whose upper
address, mask and pending fields are zero). -/
theorem msi_write_read_roundtrip_32bit_witness :
    capStore 0x40 % 2 ^ 32 % 2 ^ 8 = 5 ∧
    ∃ s3, msiWriteInfo ram capStore 0x40 msi32Info = (true, s3) ∧
      msiReadInfo ram s3 0x40 = some msi32Info :=
  ⟨rfl, msi_write_read_roundtrip_32bit capStore 0x40 msi32Info (by decide) (by decide)
    (by decide) (by decide) (by decide) (by decide) (by decide) (by decide) (by decide)⟩

/-! ## C2 / C4 — the dword-reconciliation engine -/

/-- Every byte of a dword image is below 256. -/
theorem mem_dwordLEBytes_lt (v b : Nat) (h : b ∈ dwordLEBytes v) : b < 2 ^ 8 := by
  simp [dwordLEBytes] at h
  rcases h with h | h | h | h <;> omega

/-- A dword image has four bytes. -/
theorem length_dwordLEBytes (v : Nat) : (dwordLEBytes v).length = 4 := rfl

/-- A little-endian byte list below 256 reassembles below `2 ^ (8·length)`. -/
theorem bytesToDword_lt_pow (bs : List Nat) (h : ∀ b ∈ bs, b < 2 ^ 8) :
    bytesToDword bs < 2 ^ (8 * bs.length) := by
  induction bs with
  | nil => simp [bytesToDword]
  | cons b t ih =>
      have hb : b < 2 ^ 8 := h b (by simp)
      have ht : bytesToDword t < 2 ^ (8 * t.length) :=
        ih (fun x hx => h x (by simp [hx]))
      have hpow : (2 : Nat) ^ (8 * (b :: t).length) = 2 ^ (8 * t.length) * 2 ^ 8 := by
        rw [List.length_cons]
        rw [show 8 * (t.length + 1) = 8 * t.length + 8 by ring, pow_add]
      simp only [bytesToDword, List.foldr_cons] at *
      rw [hpow]
      nlinarith [ht, hb]

/-- Splitting a dword back into bytes inverts reassembly on 4-byte lists. -/
theorem dwordLEBytes_bytesToDword (bs : List Nat) (hlen : bs.length = 4)
    (h : ∀ b ∈ bs, b < 2 ^ 8) : dwordLEBytes (bytesToDword bs) = bs := by
  rcases bs with _ | ⟨a, _ | ⟨b, _ | ⟨c, _ | ⟨d, _ | ⟨e, t⟩⟩⟩⟩⟩ <;>
    simp_all [dwordLEBytes, bytesToDword]
  omega

/-- C2: modelling the channel as a dword-addressed store of u32 values: for a
value of byte-size below 4 whose byte span lies within a single dword,
`write` (of the value's byte image) followed by `read` on the same accessor
returns the value exactly, and every byte of the containing dword outside the
written sub-range is left unchanged by the write. -/
theorem sub_dword_write_read (s : Nat → Nat) (off : Nat) (bytes : List Nat)
    (h0 : 0 < bytes.length) (hlt : bytes.length < 4)
    (hspan : off / 4 = (off + bytes.length - 1) / 4)
    (hb : ∀ b ∈ bytes, b < 2 ^ 8)
    (hsv : s (off - off % 4) < 2 ^ 32) :
    ∃ s2, accessorWrite ram s off bytes = some s2 ∧
      accessorRead ram s2 off bytes.length = some bytes ∧
      ∀ i, i < 4 → (i < off % 4 ∨ off % 4 + bytes.length ≤ i) →
        (dwordLEBytes (s2 (off - off % 4)))[i]? = (dwordLEBytes (s (off - off % 4)))[i]? := by
  have hspn : off % 4 + bytes.length ≤ 4 := by omega
  have hsmod : s (off - off % 4) % 2 ^ 32 = s (off - off % 4) := by omega
  have hlenT : ((dwordLEBytes (s (off - off % 4))).take (off % 4)).length = off % 4 := by
    simp [length_dwordLEBytes]
    omega
  have hsel : ∀ b ∈ (dwordLEBytes (s (off - off % 4))).take (off % 4) ++ (bytes ++
      (dwordLEBytes (s (off - off % 4))).drop (off % 4 + bytes.length)), b < 2 ^ 8 := by
    intro b hbm
    rcases List.mem_append.1 hbm with hbm | hbm
    · exact mem_dwordLEBytes_lt _ _ (List.take_subset _ _ hbm)
    · rcases List.mem_append.1 hbm with hbm | hbm
      · exact hb b hbm
      · exact mem_dwordLEBytes_lt _ _ (List.drop_subset _ _ hbm)
  have hlenS : ((dwordLEBytes (s (off - off % 4))).take (off % 4) ++ (bytes ++
      (dwordLEBytes (s (off - off % 4))).drop (off % 4 + bytes.length))).length = 4 := by
    simp [length_dwordLEBytes]
    omega
  have hv2 : bytesToDword ((dwordLEBytes (s (off - off % 4))).take (off % 4) ++ (bytes ++
      (dwordLEBytes (s (off - off % 4))).drop (off % 4 + bytes.length))) < 2 ^ 32 := by
    have h1 := bytesToDword_lt_pow _ hsel
    rw [hlenS] at h1
    exact h1
  have hrt : dwordLEBytes (bytesToDword ((dwordLEBytes (s (off - off % 4))).take (off % 4) ++
      (bytes ++ (dwordLEBytes (s (off - off % 4))).drop (off % 4 + bytes.length))))
      = (dwordLEBytes (s (off - off % 4))).take (off % 4) ++
        (bytes ++ (dwordLEBytes (s (off - off % 4))).drop (off % 4 + bytes.length)) :=
    dwordLEBytes_bytesToDword _ hlenS hsel
  refine ⟨ram.writeDword s (off - off % 4)
      (bytesToDword ((dwordLEBytes (s (off - off % 4))).take (off % 4) ++ (bytes ++
        (dwordLEBytes (s (off - off % 4))).drop (off % 4 + bytes.length)))), ?_, ?_, ?_⟩
  · simp only [accessorWrite, if_pos hlt, if_pos hspan, ram_read, hsmod, List.append_assoc]
  · simp only [accessorRead, if_pos hlt, if_pos hspan, ram_read, ram_write_get,
      eq_self_iff_true, if_true, Nat.mod_eq_of_lt hv2, hsmod, hrt]
    rw [List.drop_left' hlenT, List.take_left' rfl]
  · intro i hi4 hout
    rw [ram_write_get, if_pos rfl, hrt]
    rcases hout with hout | hout
    · rw [List.getElem?_append, if_pos (by rw [hlenT]; omega)]
      rw [List.getElem?_take, if_pos (by omega)]
    · rw [List.getElem?_append, if_neg (by rw [hlenT]; omega)]
      rw [List.getElem?_append, if_neg (by rw [hlenT]; omega)]
      rw [List.getElem?_drop]
      congr 1
      rw [hlenT]
      omega

/-- C2 witness: writing the byte `0xAB` at offset 1 of the all-zero store and
reading it back returns `0xAB`; bytes 0, 2, 3 of dword 0 are unchanged. -/
theorem sub_dword_write_read_witness :
    (1 : Nat) / 4 = (1 + [0xAB].length - 1) / 4 ∧
    ∃ s2, accessorWrite ram zeroStore 1 [0xAB] = some s2 ∧
      accessorRead ram s2 1 [0xAB].length = some [0xAB] ∧
      ∀ i, i < 4 → (i < 1 % 4 ∨ 1 % 4 + [0xAB].length ≤ i) →
        (dwordLEBytes (s2 (1 - 1 % 4)))[i]? = (dwordLEBytes (zeroStore (1 - 1 % 4)))[i]? :=
  ⟨by decide, sub_dword_write_read zeroStore 1 [0xAB] (by decide) (by decide) (by decide)
    (by decide) (by decide)⟩

/-- The aligned read loop equals `n/4` indexed dword reads at ascending
offsets, concatenated. -/
theorem readChunks_eq {σ : Type} (m : DwordAccessMethod σ) (s : σ) (k : Nat) :
    ∀ off, readChunks m s off k =
      ((List.range k).map fun i => dwordLEBytes (m.readDword s (off + 4 * i) % 2 ^ 32)).flatten := by
  induction k with
  | zero => intro off; simp [readChunks]
  | succ k ih =>
      intro off
      rw [readChunks, ih (off + 4), List.range_succ_eq_map, List.map_cons, List.flatten_cons,
        List.map_map]
      have hcong : ∀ a ∈ List.range k,
          ((fun i => dwordLEBytes (m.readDword s (off + 4 * i) % 2 ^ 32)) ∘ Nat.succ) a
            = (fun i => dwordLEBytes (m.readDword s (off + 4 + 4 * i) % 2 ^ 32)) a := by
        intro a _
        have harith : off + 4 * Nat.succ a = off + 4 + 4 * a := by omega
        simp only [Function.comp, harith]
      rw [List.map_congr_left hcong]
      have h0 : off + 4 * 0 = off := by omega
      rw [h0]

/-- The aligned write loop never touches offsets below its start. -/
theorem writeChunks_lower (k : Nat) :
    ∀ (s : Nat → Nat) (off : Nat) (bytes : List Nat) (o : Nat), o < off →
      writeChunks ram s off k bytes o = s o := by
  induction k with
  | zero => intro s off bytes o _; rfl
  | succ k ih =>
      intro s off bytes o ho
      rw [writeChunks, ih _ _ _ _ (by omega), ram_write_get, if_neg (by omega)]

/-- On the RAM store, reading back the chunks just written returns the byte
list exactly. -/
theorem writeChunks_roundtrip (k : Nat) :
    ∀ (s : Nat → Nat) (off : Nat) (bytes : List Nat), bytes.length = 4 * k →
      (∀ b ∈ bytes, b < 2 ^ 8) →
      readChunks ram (writeChunks ram s off k bytes) off k = bytes := by
  induction k with
  | zero =>
      intro s off bytes hlen _
      rw [List.length_eq_zero.1 (by omega : bytes.length = 0)]
      rfl
  | succ k ih =>
      intro s off bytes hlen hb
      rcases bytes with _ | ⟨a, bytes⟩
      · simp at hlen
      rcases bytes with _ | ⟨b, bytes⟩
      · simp at hlen; omega
      rcases bytes with _ | ⟨c, bytes⟩
      · simp at hlen; omega
      rcases bytes with _ | ⟨d, rest⟩
      · simp at hlen; omega
      have hrest : rest.length = 4 * k := by simp at hlen; omega
      have hquad : ∀ x ∈ [a, b, c, d], x < 2 ^ 8 := by
        intro x hx
        simp at hx
        rcases hx with h | h | h | h <;> subst h <;> exact hb _ (by simp)
      have hrb : ∀ x ∈ rest, x < 2 ^ 8 := fun x hx => hb x (by simp [hx])
      rw [writeChunks]
      rw [show (a :: b :: c :: d :: rest).take 4 = [a, b, c, d] from rfl,
        show (a :: b :: c :: d :: rest).drop 4 = rest from rfl]
      rw [readChunks]
      rw [ram_read, writeChunks_lower k _ _ _ _ (by omega), ram_write_get, if_pos rfl]
      have ha2 : a < 2 ^ 8 := hquad a (by simp)
      have hb2 : b < 2 ^ 8 := hquad b (by simp)
      have hc2 : c < 2 ^ 8 := hquad c (by simp)
      have hd2 : d < 2 ^ 8 := hquad d (by simp)
      have hval : bytesToDword [a, b, c, d] = a + 2 ^ 8 * (b + 2 ^ 8 * (c + 2 ^ 8 * d)) := by
        simp [bytesToDword]
      have hmod : bytesToDword [a, b, c, d] % 2 ^ 32 = bytesToDword [a, b, c, d] := by
        rw [hval]
        omega
      rw [hmod, dwordLEBytes_bytesToDword [a, b, c, d] rfl hquad, ih _ _ rest hrest hrb]
      rfl

/-- C4: for a value whose byte-size `n` is a multiple of 4, accessed at a
4-byte-aligned offset: `read` returns the concatenation, in ascending offset
order, of the little-endian byte images of `n/4` sequential dword reads (over
any channel); and on the dword store, `write` followed by `read` reproduces
the value's byte sequence exactly across all constituent dwords. -/
theorem aligned_multi_dword_read_write :
    (∀ {σ : Type} (m : DwordAccessMethod σ) (s : σ) (off n : Nat),
      off % 4 = 0 → n % 4 = 0 → 4 ≤ n →
      accessorRead m s off n =
        some (((List.range (n / 4)).map fun i =>
          dwordLEBytes (m.readDword s (off + 4 * i) % 2 ^ 32)).flatten)) ∧
    (∀ (s : Nat → Nat) (off : Nat) (bytes : List Nat),
      off % 4 = 0 → bytes.length % 4 = 0 → 4 ≤ bytes.length → (∀ b ∈ bytes, b < 2 ^ 8) →
      ∃ s2, accessorWrite ram s off bytes = some s2 ∧
        accessorRead ram s2 off bytes.length = some bytes) := by
  constructor
  · intro σ m s off n h4 hn hge
    rw [accessorRead, if_neg (by omega), if_pos ⟨h4, hn⟩, readChunks_eq]
  · intro s off bytes h4 hn hge hb
    refine ⟨writeChunks ram s off (bytes.length / 4) bytes, ?_, ?_⟩
    · rw [accessorWrite, if_neg (by omega), if_pos ⟨h4, hn⟩]
    · rw [accessorRead, if_neg (by omega), if_pos ⟨h4, hn⟩,
        writeChunks_roundtrip (bytes.length / 4) s off bytes (by omega) hb]

/-- C4 witness: at offset 4 an 8-byte value is read as two dword images
concatenated, and writing the bytes 1..8 then reading them back returns them
exactly. -/
theorem aligned_multi_dword_read_write_witness :
    accessorRead ram zeroStore 4 8 =
      some (((List.range 2).map fun i =>
        dwordLEBytes (ram.readDword zeroStore (4 + 4 * i) % 2 ^ 32)).flatten) ∧
    ∃ s2, accessorWrite ram zeroStore 4 [1, 2, 3, 4, 5, 6, 7, 8] = some s2 ∧
      accessorRead ram s2 4 [1, 2, 3, 4, 5, 6, 7, 8].length = some [1, 2, 3, 4, 5, 6, 7, 8] :=
  ⟨aligned_multi_dword_read_write.1 ram zeroStore 4 8 rfl rfl (by decide),
    aligned_multi_dword_read_write.2 zeroStore 4 [1, 2, 3, 4, 5, 6, 7, 8] rfl rfl
      (by decide) (by decide)⟩

end PciTypes
